import Mathlib

/-!
Verification development for the RAG (retrieval-augmented generation) pipeline
of the lineAI backend: a shallow embedding of `app/rag/document_processor.py`,
`app/rag/vector_store.py` and `app/rag/rag_service.py`, with theorems about
upload gating, chunk tagging, deletion, context assembly and error cleanup.

External effects are made explicit:
* the upload directory is an association list from path to raw bytes,
* the vector store collection is the list of chunks added so far,
* fallible external calls (file parsing in `process_file`, the embedding and
  persistence performed by the Chroma `add_documents` call) are injected as
  outcome parameters, so a theorem can quantify over every possible failure.
-/

namespace LineAI

/-- A stored chunk: `page_content` plus the metadata keys that
`DocumentProcessor.process_file` attaches (`source`, `chunk_index`,
`total_chunks`).  Raw text is a list of characters. -/
structure Chunk where
  content : List Char
  source : String
  chunk_index : Nat
  total_chunks : Nat
deriving DecidableEq, Repr

/-- The configuration fields of `app/core/config.py:Settings` that the RAG
pipeline reads. -/
structure Settings where
  chunk_size : Nat
  chunk_overlap : Nat
  max_file_size : Nat
  upload_dir : String
deriving DecidableEq, Repr

/-- Observable state of one `RAGService` process: the upload directory
(path to raw bytes) and the vector store collection. -/
structure RAGState where
  fs : List (String × List Char)
  store : List Chunk
deriving DecidableEq, Repr

/-- Errors raised on the upload path.  `ValueError` for the two gates;
`processingFailed` and `storageFailed` carry an opaque code identifying the
exception raised by the document loader resp. the store, so re-raising the
same exception is expressible. -/
inductive UploadError where
  | unsupportedFormat
  | fileTooLarge
  | processingFailed (code : Nat)
  | storageFailed (code : Nat)
deriving DecidableEq, Repr

/-- Outcome of the external Chroma `add_documents` call: success, or an
exception (with code) after having durably written some sublist of the
batch (the store does no rollback of partially-upserted embeddings). -/
inductive UpsertOutcome where
  | ok
  | fail (code : Nat) (written : List Chunk)
deriving DecidableEq, Repr

/-- Configuration error detected when the service is constructed. -/
inductive ConfigError where
  | overlapNotLessThanSize
deriving DecidableEq, Repr

instance {ε α : Type} [DecidableEq ε] [DecidableEq α] : DecidableEq (Except ε α) :=
  fun a b =>
    match a, b with
    | Except.ok x, Except.ok y =>
        if h : x = y then isTrue (by rw [h])
        else isFalse (by intro hh; cases hh; exact h rfl)
    | Except.error x, Except.error y =>
        if h : x = y then isTrue (by rw [h])
        else isFalse (by intro hh; cases hh; exact h rfl)
    | Except.ok _, Except.error _ => isFalse (by intro hh; cases hh)
    | Except.error _, Except.ok _ => isFalse (by intro hh; cases hh)

/-! ### Filename extension check (`DocumentProcessor.is_supported`) -/

/-- `str.lower()` on the characters of a string. -/
def lowerStr (s : String) : String :=
  String.mk (s.data.map Char.toLower)

/-- Final path component, as `pathlib.PurePath.name`: the characters after
the last slash. -/
def afterLastSlash (cs : List Char) : List Char :=
  cs.foldl (fun acc c => if c = '/' then [] else acc ++ [c]) []

/-- Index of the last occurrence of `c`, if any. -/
def rfindChar (c : Char) (cs : List Char) : Option Nat :=
  (cs.foldl
    (fun (acc : Option Nat × Nat) ch =>
      (if ch = c then some acc.2 else acc.1, acc.2 + 1))
    (none, 0)).1

/-- `pathlib.PurePath.suffix`: the extension of the final component, i.e.
`name[i:]` for the last dot position `i` when `0 < i < len(name) - 1`,
otherwise the empty string. -/
def pathSuffix (filename : String) : String :=
  let name := afterLastSlash filename.data
  match rfindChar '.' name with
  | none => ""
  | some i => if 0 < i ∧ i < name.length - 1 then String.mk (name.drop i) else ""

/-- `DocumentProcessor.SUPPORTED_EXTENSIONS`. -/
def SUPPORTED_EXTENSIONS : List String :=
  [".txt", ".pdf", ".docx", ".md", ".json", ".csv"]

/-- `DocumentProcessor.is_supported`: lower-cased suffix membership. -/
def is_supported (filename : String) : Bool :=
  decide (lowerStr (pathSuffix filename) ∈ SUPPORTED_EXTENSIONS)

/-! ### Chunker

Modelled from the spec: the text splitter used by `DocumentProcessor` is the
third-party `RecursiveCharacterTextSplitter` (langchain), whose source is not
part of this repository.  Spec §4.1: `split(text, chunk_size, chunk_overlap)`
produces ordered segments of length ≤ `chunk_size`; adjacent segments overlap
by up to `chunk_overlap` characters, taken from the tail of the previous
segment; nonempty text shorter than `chunk_size` yields exactly one chunk.
It is modelled as a character window of width `chunk_size` advancing by
`chunk_size - chunk_overlap` positions; empty extracted text produces no
segments (the library's `split_documents` yields no documents for empty
text, which the service code at `rag_service.py:52-59` then stores as zero
chunks). -/

/-- One sliding-window step: emit the whole remainder if it fits in `size`,
otherwise emit a window of `size` characters and advance by `k + 1`
characters (`k + 1 = size - overlap`).  The fuel argument starts at the text
length and strictly dominates it throughout, so the fuel never runs out. -/
def slidingChunksAux (size k : Nat) : Nat → List Char → List (List Char)
  | _, [] => []
  | 0, _ :: _ => []
  | fuel + 1, c :: tl =>
      if (c :: tl).length ≤ size then [c :: tl]
      else (c :: tl).take size :: slidingChunksAux size k fuel ((c :: tl).drop (k + 1))

/-- Split a text into windows of width `size` advancing by `k + 1`. -/
def slidingChunks (size k : Nat) (cs : List Char) : List (List Char) :=
  slidingChunksAux size k cs.length cs

/-- Modelled from the spec (§4.1): the configured splitter,
`RecursiveCharacterTextSplitter(chunk_size, chunk_overlap)` as built in
`DocumentProcessor.__init__`, specialised to window stride
`chunk_size - chunk_overlap`.  Only called with `chunk_overlap < chunk_size`
(enforced at construction, see `document_processor_init`). -/
def splitText (size ov : Nat) (text : List Char) : List (List Char) :=
  slidingChunks size (size - ov - 1) text

/-! ### Chunk tagging (`DocumentProcessor.process_file`, lines 56-75) -/

/-- The `for i, chunk in enumerate(chunks)` tagging loop, carrying the
running index. -/
def tagChunksAux (filename : String) (total : Nat) : Nat → List (List Char) → List Chunk
  | _, [] => []
  | i, t :: ts =>
      { content := t, source := filename, chunk_index := i, total_chunks := total }
        :: tagChunksAux filename total (i + 1) ts

/-- Tag every chunk with `source`, `chunk_index` and `total_chunks`. -/
def tagChunks (filename : String) (texts : List (List Char)) : List Chunk :=
  tagChunksAux filename texts.length 0 texts

/-- `DocumentProcessor.process_file` after text extraction: split the
extracted text and tag the chunks.  (Extraction itself reads external files
and is injected as an outcome where `process_file` is called.) -/
def process_file (cfg : Settings) (filename : String) (text : List Char) : List Chunk :=
  tagChunks filename (splitText cfg.chunk_size cfg.chunk_overlap text)

/-! ### Vector store (`app/rag/vector_store.py`) -/

/-- `VectorStore.add_documents`: empty input returns 0 without touching the
collection; otherwise the external Chroma call either appends the batch and
the method returns `len(documents)`, or raises after durably writing some
sublist. -/
def add_documents (up : UpsertOutcome) (store docs : List Chunk) :
    List Chunk × Except UploadError Nat :=
  if docs.isEmpty then (store, Except.ok 0)
  else
    match up with
    | UpsertOutcome.ok => (store ++ docs, Except.ok docs.length)
    | UpsertOutcome.fail code written => (store ++ written, Except.error (UploadError.storageFailed code))

/-- `VectorStore.delete_by_source`: fetch the ids whose metadata `source`
matches; if any, delete exactly those and return `true`, else return
`false`. -/
def delete_by_source (source : String) (store : List Chunk) : List Chunk × Bool :=
  if store.any (fun c => c.source == source) then
    (store.filter (fun c => c.source != source), true)
  else (store, false)

/-- Insert a string into an accumulator unless already present (the
observable content of Python's `set.add`). -/
def dedupAdd (acc : List String) (s : String) : List String :=
  if s ∈ acc then acc else acc ++ [s]

/-- `VectorStore.get_all_sources`: the deduplicated `source` values of all
stored chunks. -/
def get_all_sources (store : List Chunk) : List String :=
  store.foldl (fun acc c => dedupAdd acc c.source) []

/-- `VectorStore.get_document_count`: `collection.count()`. -/
def get_document_count (store : List Chunk) : Nat :=
  store.length

/-- `VectorStore.search_with_scores`: score every stored chunk (Chroma
returns distances, lower is more similar), order ascending, return the first
`top_k`.  The embedding-derived scoring is injected as a function. -/
def search_with_scores (score : Chunk → Int) (store : List Chunk) (top_k : Nat) :
    List (Chunk × Int) :=
  ((store.map (fun c => (c, score c))).insertionSort (fun a b => a.2 ≤ b.2)).take top_k

/-! ### Retrieval service (`app/rag/rag_service.py`) -/

/-- `os.path.join(dir, name)` for the cases arising here: an absolute `name`
replaces `dir`; otherwise a single separator joins the parts. -/
def osPathJoin (dir name : String) : String :=
  if name.data.head? = some '/' then name
  else if dir.data = [] then name
  else if dir.data.getLast? = some '/' then dir ++ name
  else dir ++ "/" ++ name

/-- `open(path, "wb").write(content)`: overwrite or create. -/
def fsWrite (fs : List (String × List Char)) (path : String) (content : List Char) :
    List (String × List Char) :=
  (path, content) :: fs.filter (fun e => e.1 != path)

/-- `os.remove(path)` guarded by `os.path.exists`. -/
def fsRemove (fs : List (String × List Char)) (path : String) :
    List (String × List Char) :=
  fs.filter (fun e => e.1 != path)

/-- `os.path.exists(path)`. -/
def fsExists (fs : List (String × List Char)) (path : String) : Bool :=
  fs.any (fun e => e.1 == path)

/-- A row of the list `RAGService.query` returns: content, source,
chunk index and score. -/
structure QueryRecord where
  content : List Char
  source : String
  chunk_index : Nat
  score : Int
deriving DecidableEq, Repr

/-- `RAGService.query`: shape each `(document, score)` pair from
`search_with_scores` into a record. -/
def rag_query (score : Chunk → Int) (store : List Chunk) (top_k : Nat) :
    List QueryRecord :=
  (search_with_scores score store top_k).map
    (fun p =>
      { content := p.1.content, source := p.1.source,
        chunk_index := p.1.chunk_index, score := p.2 })

/-- One labeled context block:
`[Document i] (Source: <source>)` then a newline and the chunk content. -/
def blockStr (i : Nat) (r : QueryRecord) : String :=
  "[Document " ++ toString i ++ "] (Source: " ++ r.source ++ ")\n" ++ String.mk r.content

/-- The `for i, result in enumerate(results, 1)` loop building the context
parts. -/
def contextBlocks : Nat → List QueryRecord → List String
  | _, [] => []
  | i, r :: rs => blockStr i r :: contextBlocks (i + 1) rs

/-- The deduplicated source names contributing to a result list (the
`sources` set of `get_context_for_query`). -/
def sourcesOf (results : List QueryRecord) : List String :=
  results.foldl (fun acc r => dedupAdd acc r.source) []

/-- `RAGService.get_context_for_query`: empty results give `("", [])`;
otherwise the blocks joined by the horizontal-rule separator, with the
contributing sources. -/
def get_context_for_query (score : Chunk → Int) (store : List Chunk) (top_k : Nat) :
    String × List String :=
  let results := rag_query score store top_k
  if results.isEmpty then ("", [])
  else (String.intercalate "\n\n---\n\n" (contextBlocks 1 results), sourcesOf results)

/-- `RAGService.upload_document`.  The two gates are checked in source
order; then the raw bytes are written at `os.path.join(upload_dir,
filename)`; then `process_file` (text extraction outcome injected as
`extract`) and `add_documents` (outcome injected as `up`) run inside the
`try`, whose handler removes the written file and re-raises. -/
def upload_document (cfg : Settings) (extract : Except Nat (List Char))
    (up : UpsertOutcome) (st : RAGState) (filename : String) (content : List Char) :
    RAGState × Except UploadError (String × Nat) :=
  if is_supported filename = false then
    (st, Except.error UploadError.unsupportedFormat)
  else if cfg.max_file_size < content.length then
    (st, Except.error UploadError.fileTooLarge)
  else
    let path := osPathJoin cfg.upload_dir filename
    let fs1 := fsWrite st.fs path content
    match extract with
    | Except.error code =>
        ({ fs := fsRemove fs1 path, store := st.store },
          Except.error (UploadError.processingFailed code))
    | Except.ok text =>
        let chunks := process_file cfg filename text
        let r := add_documents up st.store chunks
        match r.2 with
        | Except.ok n => ({ fs := fs1, store := r.1 }, Except.ok (filename, n))
        | Except.error err => ({ fs := fsRemove fs1 path, store := r.1 }, Except.error err)

/-- `RAGService.delete_document`: delete from the vector store, then remove
the physical file if present; return the store's deletion result. -/
def delete_document (cfg : Settings) (st : RAGState) (filename : String) :
    RAGState × Bool :=
  let p := delete_by_source filename st.store
  ({ fs := fsRemove st.fs (osPathJoin cfg.upload_dir filename), store := p.1 }, p.2)

/-- Modelled from the spec (§4.1): the validation performed when
`DocumentProcessor.__init__` builds the third-party splitter (code not in
this repository) — `chunk_overlap` must be strictly less than `chunk_size`,
violating configurations fail at construction. -/
def document_processor_init (s : Settings) : Except ConfigError Unit :=
  if s.chunk_overlap < s.chunk_size then Except.ok ()
  else Except.error ConfigError.overlapNotLessThanSize

/-- Constructed service handle (the configuration the service captures). -/
structure RAGServiceHandle where
  chunk_size : Nat
  chunk_overlap : Nat
  max_file_size : Nat
  upload_dir : String
deriving DecidableEq, Repr

/-- `RAGService.__init__`: constructs the `DocumentProcessor` (which builds
the splitter, validating the chunk configuration) before any operation can
be invoked. -/
def rag_service_init (s : Settings) : Except ConfigError RAGServiceHandle :=
  match document_processor_init s with
  | Except.error e => Except.error e
  | Except.ok _ =>
      Except.ok { chunk_size := s.chunk_size, chunk_overlap := s.chunk_overlap,
                  max_file_size := s.max_file_size, upload_dir := s.upload_dir }

/-! ### Concrete fixtures used by witness theorems -/

/-- A small concrete configuration. -/
def cfg0 : Settings :=
  { chunk_size := 10, chunk_overlap := 3, max_file_size := 4, upload_dir := "up" }

/-- Empty initial state. -/
def st0 : RAGState := { fs := [], store := [] }

/-- A concrete chunk as produced by a one-chunk upload of `a.txt`. -/
def chunkHi : Chunk :=
  { content := ['h', 'i'], source := "a.txt", chunk_index := 0, total_chunks := 1 }

/-- State after a successful one-chunk upload of `a.txt` with raw byte `x`. -/
def st1c : RAGState := { fs := [("up/a.txt", ['x'])], store := [chunkHi] }

/-- State after a subsequent failed re-upload of `a.txt`. -/
def st2c : RAGState := { fs := [], store := [chunkHi] }

/-! ### Basic lemmas: file system, dedup folds, tagging -/

/-- Removing a path removes it: no entry with that key survives the filter. -/
theorem fsExists_fsRemove (fs : List (String × List Char)) (p : String) :
    fsExists (fsRemove fs p) p = false := by
  rw [fsExists, fsRemove, List.any_eq_false]
  intro e he
  have h := (List.mem_filter.mp he).2
  simp only [bne_iff_ne, ne_eq] at h
  simp [h]

/-- A freshly written path exists. -/
theorem fsExists_fsWrite (fs : List (String × List Char)) (p : String) (c : List Char) :
    fsExists (fsWrite fs p c) p = true := by
  simp [fsExists, fsWrite]

/-- Membership after a conditional insert. -/
theorem mem_dedupAdd (acc : List String) (t s : String) :
    s ∈ dedupAdd acc t ↔ s ∈ acc ∨ s = t := by
  rw [dedupAdd]
  split
  · constructor
    · exact fun h => Or.inl h
    · rintro (h | rfl) <;> [exact h; assumption]
  · simp [List.mem_append]

/-- Conditional insert preserves distinctness. -/
theorem nodup_dedupAdd (acc : List String) (t : String) (h : acc.Nodup) :
    (dedupAdd acc t).Nodup := by
  rw [dedupAdd]
  split
  · exact h
  · simpa [List.nodup_append, h]

/-- Membership in the fold that accumulates deduplicated images of `f`. -/
theorem mem_foldl_dedupAdd {α : Type} (f : α → String) (l : List α) (acc : List String)
    (s : String) :
    s ∈ l.foldl (fun a x => dedupAdd a (f x)) acc ↔ s ∈ acc ∨ ∃ x ∈ l, f x = s := by
  induction l generalizing acc with
  | nil => simp
  | cons y ys ih =>
      rw [List.foldl_cons, ih, mem_dedupAdd]
      constructor
      · rintro ((h | rfl) | ⟨x, hx, rfl⟩)
        · exact Or.inl h
        · exact Or.inr ⟨y, by simp⟩
        · exact Or.inr ⟨x, by simp [hx]⟩
      · rintro (h | ⟨x, hx, rfl⟩)
        · exact Or.inl (Or.inl h)
        · rcases List.mem_cons.mp hx with rfl | hx
          · exact Or.inl (Or.inr rfl)
          · exact Or.inr ⟨x, hx, rfl⟩

/-- The dedup fold keeps the accumulator distinct. -/
theorem nodup_foldl_dedupAdd {α : Type} (f : α → String) (l : List α) (acc : List String)
    (h : acc.Nodup) :
    (l.foldl (fun a x => dedupAdd a (f x)) acc).Nodup := by
  induction l generalizing acc with
  | nil => exact h
  | cons y ys ih => exact ih _ (nodup_dedupAdd _ _ h)

/-- `get_all_sources` lists exactly the sources present in the store. -/
theorem mem_get_all_sources (store : List Chunk) (s : String) :
    s ∈ get_all_sources store ↔ ∃ c ∈ store, c.source = s := by
  rw [get_all_sources, mem_foldl_dedupAdd Chunk.source]
  simp

/-- The tagging loop preserves length. -/
theorem tagChunksAux_length (f : String) (total : Nat) :
    ∀ (ts : List (List Char)) (i : Nat), (tagChunksAux f total i ts).length = ts.length := by
  intro ts
  induction ts with
  | nil => intro i; rfl
  | cons t ts ih => intro i; simp [tagChunksAux, ih]

/-- The tagging loop numbers chunks consecutively from its start index. -/
theorem tagChunksAux_map_chunk_index (f : String) (total : Nat) :
    ∀ (ts : List (List Char)) (i : Nat),
      (tagChunksAux f total i ts).map Chunk.chunk_index = List.range' i ts.length := by
  intro ts
  induction ts with
  | nil => intro i; rfl
  | cons t ts ih => intro i; simp [tagChunksAux, ih, List.range']

/-- Every chunk the tagging loop emits carries the loop's total and source. -/
theorem tagChunksAux_mem (f : String) (total : Nat) :
    ∀ (ts : List (List Char)) (i : Nat) (c : Chunk), c ∈ tagChunksAux f total i ts →
      c.total_chunks = total ∧ c.source = f := by
  intro ts
  induction ts with
  | nil => intro i c hc; cases hc
  | cons t ts ih =>
      intro i c hc
      rcases List.mem_cons.mp hc with rfl | hc
      · exact ⟨rfl, rfl⟩
      · exact ih _ _ hc

/-- The tagging loop emits exactly the texts it was given as contents. -/
theorem tagChunksAux_map_content (f : String) (total : Nat) :
    ∀ (ts : List (List Char)) (i : Nat),
      (tagChunksAux f total i ts).map Chunk.content = ts := by
  intro ts
  induction ts with
  | nil => intro i; rfl
  | cons t ts ih => intro i; simp [tagChunksAux, ih]

/-! ### Chunker lemmas -/

/-- Empty text produces no windows, whatever the fuel. -/
theorem slidingChunksAux_nil (size k fuel : Nat) : slidingChunksAux size k fuel [] = [] := by
  cases fuel <;> rfl

/-- Every window is at most `size` characters long. -/
theorem slidingChunksAux_length_le (size k : Nat) :
    ∀ (fuel : Nat) (cs : List Char), ∀ c ∈ slidingChunksAux size k fuel cs,
      c.length ≤ size := by
  intro fuel
  induction fuel with
  | zero => intro cs c hc; cases cs <;> cases hc
  | succ fuel ih =>
      intro cs c hc
      cases cs with
      | nil => cases hc
      | cons a tl =>
          simp only [slidingChunksAux] at hc
          by_cases h : (a :: tl).length ≤ size
          · rw [if_pos h] at hc
            rcases List.mem_singleton.mp hc with rfl
            exact h
          · rw [if_neg h] at hc
            rcases List.mem_cons.mp hc with rfl | hc
            · simp [List.length_take]
            · exact ih _ c hc

/-- Nonempty text that fits in one window yields exactly that window. -/
theorem slidingChunksAux_short (size k fuel : Nat) (cs : List Char) (h0 : cs ≠ [])
    (h1 : cs.length ≤ size) (hf : 1 ≤ fuel) : slidingChunksAux size k fuel cs = [cs] := by
  cases cs with
  | nil => exact absurd rfl h0
  | cons a tl =>
      cases fuel with
      | zero => omega
      | succ fuel =>
          simp only [slidingChunksAux]
          rw [if_pos h1]

/-- The first window of a nonempty text is its first `size` characters. -/
theorem slidingChunksAux_head (size k fuel : Nat) (cs : List Char) (h0 : cs ≠ [])
    (hf : 1 ≤ fuel) :
    (slidingChunksAux size k fuel cs).head? = some (cs.take size) := by
  cases cs with
  | nil => exact absurd rfl h0
  | cons a tl =>
      cases fuel with
      | zero => omega
      | succ fuel =>
          simp only [slidingChunksAux]
          by_cases h : (a :: tl).length ≤ size
          · rw [if_pos h]
            simp [List.take_of_length_le h]
          · rw [if_neg h]
            rfl

/-- Consecutive windows: the earlier one is full (`size` characters) and its
final `ov` characters are exactly the first `ov` characters of the next
window. -/
theorem slidingChunksAux_chain (size ov : Nat) (hov : ov < size) :
    ∀ (fuel : Nat) (cs : List Char),
      List.Chain'
        (fun c c' => c.length = size ∧ ov ≤ c'.length ∧ c.drop (size - ov) = c'.take ov)
        (slidingChunksAux size (size - ov - 1) fuel cs) := by
  intro fuel
  induction fuel with
  | zero => intro cs; cases cs <;> simp [slidingChunksAux]
  | succ fuel ih =>
      intro cs
      cases cs with
      | nil => simp [slidingChunksAux]
      | cons a tl =>
          simp only [slidingChunksAux]
          by_cases h : (a :: tl).length ≤ size
          · rw [if_pos h]
            exact List.chain'_singleton _
          · rw [if_neg h]
            rw [List.chain'_cons']
            refine ⟨?_, ih _⟩
            intro b hb
            have hstep : size - ov - 1 + 1 = size - ov := by omega
            have hlen : size < (a :: tl).length := by omega
            have hdslen : ((a :: tl).drop (size - ov - 1 + 1)).length
                = (a :: tl).length - (size - ov) := by
              rw [List.length_drop, hstep]
            have hdspos : 0 < ((a :: tl).drop (size - ov - 1 + 1)).length := by omega
            cases fuel with
            | zero =>
                rw [show slidingChunksAux size (size - ov - 1) 0
                      ((a :: tl).drop (size - ov - 1 + 1)) = [] from by
                    cases ((a :: tl).drop (size - ov - 1 + 1)) <;> rfl] at hb
                cases hb
            | succ fuel' =>
                rw [slidingChunksAux_head size (size - ov - 1) (fuel' + 1)
                      ((a :: tl).drop (size - ov - 1 + 1))
                      (List.ne_nil_of_length_pos hdspos) (by omega)] at hb
                rcases Option.mem_some_iff.mp hb with rfl
                refine ⟨?_, ?_, ?_⟩
                · simp only [List.length_take]
                  omega
                · simp only [List.length_take]
                  omega
                · rw [List.drop_take, List.take_take, hstep]
                  congr 1
                  omega

/-- `splitText` on empty text yields no chunks. -/
theorem splitText_nil (size ov : Nat) : splitText size ov [] = [] := rfl

/-- Every chunk `splitText` produces has length at most `size`. -/
theorem splitText_length_le (size ov : Nat) (text : List Char) :
    ∀ c ∈ splitText size ov text, c.length ≤ size :=
  slidingChunksAux_length_le size (size - ov - 1) text.length text

/-- Consecutive chunks of `splitText` share exactly the configured overlap:
the earlier chunk is full and its last `ov` characters equal the next
chunk's first `ov` characters. -/
theorem splitText_chain (size ov : Nat) (hov : ov < size) (text : List Char) :
    List.Chain'
      (fun c c' => c.length = size ∧ ov ≤ c'.length ∧ c.drop (size - ov) = c'.take ov)
      (splitText size ov text) :=
  slidingChunksAux_chain size ov hov text.length text

/-- Nonempty text no longer than `size` yields exactly one chunk. -/
theorem splitText_single (size ov : Nat) (text : List Char) (h0 : text ≠ [])
    (h1 : text.length ≤ size) : splitText size ov text = [text] :=
  slidingChunksAux_short size (size - ov - 1) text.length text h0 h1
    (by cases text with
        | nil => exact absurd rfl h0
        | cons a tl => simp)

/-! ### Store search and deletion lemmas -/

/-- Search results are stored chunks: sorting is a permutation of the scored
store and `take` only selects. -/
theorem mem_search_with_scores (score : Chunk → Int) (store : List Chunk) (top_k : Nat)
    (p : Chunk × Int) (hp : p ∈ search_with_scores score store top_k) : p.1 ∈ store := by
  rw [search_with_scores] at hp
  have h1 := List.mem_of_mem_take hp
  have h2 := (List.perm_insertionSort (fun a b : Chunk × Int => a.2 ≤ b.2)
    (store.map (fun c => (c, score c)))).mem_iff.mp h1
  rcases List.mem_map.mp h2 with ⟨c, hc, rfl⟩
  exact hc

/-- Every query record reports the source of some stored chunk. -/
theorem rag_query_mem (score : Chunk → Int) (store : List Chunk) (top_k : Nat)
    (r : QueryRecord) (hr : r ∈ rag_query score store top_k) :
    ∃ c ∈ store, r.source = c.source := by
  rw [rag_query] at hr
  rcases List.mem_map.mp hr with ⟨p, hp, rfl⟩
  exact ⟨p.1, mem_search_with_scores score store top_k p hp, rfl⟩

/-- After deletion no surviving chunk carries the deleted source. -/
theorem delete_by_source_removes (f : String) (store : List Chunk) :
    ∀ c ∈ (delete_by_source f store).1, c.source ≠ f := by
  intro c hc
  rw [delete_by_source] at hc
  by_cases hb : store.any (fun x => x.source == f) = true
  · rw [if_pos hb] at hc
    have h2 := (List.mem_filter.mp hc).2
    simpa [bne_iff_ne] using h2
  · rw [if_neg hb] at hc
    simp only [List.any_eq_true, beq_iff_eq] at hb
    exact fun hh => hb ⟨c, hc, hh⟩

/-- Deletion only touches chunks of the given source: every other chunk
survives unchanged. -/
theorem delete_by_source_keeps_others (g : String) (store : List Chunk) (c : Chunk)
    (hc : c ∈ store) (hne : c.source ≠ g) : c ∈ (delete_by_source g store).1 := by
  rw [delete_by_source]
  by_cases hb : store.any (fun x => x.source == g) = true
  · rw [if_pos hb]
    exact List.mem_filter.mpr ⟨hc, by simp [bne_iff_ne, hne]⟩
  · rw [if_neg hb]
    exact hc

/-- The returned flag says whether any chunk with that source was stored. -/
theorem delete_by_source_flag (f : String) (store : List Chunk) :
    (delete_by_source f store).2 = true ↔ ∃ c ∈ store, c.source = f := by
  rw [delete_by_source]
  by_cases hb : store.any (fun x => x.source == f) = true
  · rw [if_pos hb]
    simp only [List.any_eq_true, beq_iff_eq] at hb
    simpa using hb
  · rw [if_neg hb]
    simp only [List.any_eq_true, beq_iff_eq] at hb
    simpa using hb

/-! ### Context assembly lemmas -/

/-- One block per query result. -/
theorem contextBlocks_length :
    ∀ (rs : List QueryRecord) (i : Nat), (contextBlocks i rs).length = rs.length := by
  intro rs
  induction rs with
  | nil => intro i; rfl
  | cons r rs ih => intro i; simp [contextBlocks, ih]

/-- The `j`-th block is the formatted `j`-th result, labeled from the
enumeration start `i`. -/
theorem contextBlocks_getElem (rs : List QueryRecord) :
    ∀ (i j : Nat) (r : QueryRecord), rs[j]? = some r →
      (contextBlocks i rs)[j]? = some (blockStr (i + j) r) := by
  induction rs with
  | nil => intro i j r h; simp at h
  | cons x xs ih =>
      intro i j r h
      cases j with
      | zero =>
          rw [List.getElem?_cons_zero, Option.some_inj] at h
          subst h
          simp [contextBlocks]
      | succ j =>
          rw [List.getElem?_cons_succ] at h
          simp only [contextBlocks]
          rw [List.getElem?_cons_succ, ih (i + 1) j r h]
          congr 2
          omega

/-! ### Upload path lemmas -/

/-- A successful upsert appends the batch and reports its size. -/
theorem add_documents_ok (store docs : List Chunk) :
    add_documents UpsertOutcome.ok store docs = (store ++ docs, Except.ok docs.length) := by
  cases docs <;> simp [add_documents]

/-- A failing upsert on a nonempty batch leaves the partially-written rows
and raises. -/
theorem add_documents_fail (store docs written : List Chunk) (code : Nat)
    (h : docs ≠ []) :
    add_documents (UpsertOutcome.fail code written) store docs
      = (store ++ written, Except.error (UploadError.storageFailed code)) := by
  cases docs with
  | nil => exact absurd rfl h
  | cons d ds => simp [add_documents]

/-- Gate (a): an unsupported extension fails before any write. -/
theorem upload_document_unsupported (cfg : Settings) (extract : Except Nat (List Char))
    (up : UpsertOutcome) (st : RAGState) (f : String) (content : List Char)
    (h : is_supported f = false) :
    upload_document cfg extract up st f content
      = (st, Except.error UploadError.unsupportedFormat) := by
  rw [upload_document, if_pos h]

/-- Gate (b): an oversized payload fails before any write. -/
theorem upload_document_too_large (cfg : Settings) (extract : Except Nat (List Char))
    (up : UpsertOutcome) (st : RAGState) (f : String) (content : List Char)
    (hfmt : is_supported f = true) (h : cfg.max_file_size < content.length) :
    upload_document cfg extract up st f content
      = (st, Except.error UploadError.fileTooLarge) := by
  rw [upload_document, if_neg (by simp [hfmt]), if_pos h]

/-- Failure while loading or chunking: the written file is removed, the
store is untouched, and the loader's exception is re-raised. -/
theorem upload_document_extract_error (cfg : Settings) (up : UpsertOutcome)
    (st : RAGState) (f : String) (content : List Char) (code : Nat)
    (hfmt : is_supported f = true) (hsize : content.length ≤ cfg.max_file_size) :
    upload_document cfg (Except.error code) up st f content
      = ({ fs := fsRemove (fsWrite st.fs (osPathJoin cfg.upload_dir f) content)
              (osPathJoin cfg.upload_dir f), store := st.store },
         Except.error (UploadError.processingFailed code)) := by
  rw [upload_document, if_neg (by simp [hfmt]), if_neg (by omega)]

/-- Fully successful upload: file persisted, chunks appended, count
returned. -/
theorem upload_document_success (cfg : Settings) (st : RAGState) (f : String)
    (content text : List Char)
    (hfmt : is_supported f = true) (hsize : content.length ≤ cfg.max_file_size) :
    upload_document cfg (Except.ok text) UpsertOutcome.ok st f content
      = ({ fs := fsWrite st.fs (osPathJoin cfg.upload_dir f) content,
           store := st.store ++ process_file cfg f text },
         Except.ok (f, (process_file cfg f text).length)) := by
  rw [upload_document, if_neg (by simp [hfmt]), if_neg (by omega)]
  simp only [add_documents_ok]

/-- Upsert failure on a nonempty chunk list: the written file is removed,
the store keeps its prior rows plus whatever the failing upsert had durably
written, and the store's exception is re-raised. -/
theorem upload_document_upsert_fail (cfg : Settings) (st : RAGState) (f : String)
    (content text : List Char) (code : Nat) (written : List Chunk)
    (hfmt : is_supported f = true) (hsize : content.length ≤ cfg.max_file_size)
    (hne : process_file cfg f text ≠ []) :
    upload_document cfg (Except.ok text) (UpsertOutcome.fail code written) st f content
      = ({ fs := fsRemove (fsWrite st.fs (osPathJoin cfg.upload_dir f) content)
              (osPathJoin cfg.upload_dir f), store := st.store ++ written },
         Except.error (UploadError.storageFailed code)) := by
  rw [upload_document, if_neg (by simp [hfmt]), if_neg (by omega)]
  simp only [add_documents_fail st.store (process_file cfg f text) written code hne]

/-- Zero extracted chunks: the upload still succeeds with count 0, whatever
the health of the store, and nothing is added. -/
theorem upload_document_empty_chunks (cfg : Settings) (up : UpsertOutcome)
    (st : RAGState) (f : String) (content text : List Char)
    (hfmt : is_supported f = true) (hsize : content.length ≤ cfg.max_file_size)
    (hempty : process_file cfg f text = []) :
    upload_document cfg (Except.ok text) up st f content
      = ({ fs := fsWrite st.fs (osPathJoin cfg.upload_dir f) content,
           store := st.store }, Except.ok (f, 0)) := by
  rw [upload_document, if_neg (by simp [hfmt]), if_neg (by omega)]
  simp only [hempty, add_documents]
  rfl

/-! ### Claim theorems -/

/-- C2: `upload_document` checks its gates in order before any write.  A
filename whose lower-cased extension is outside `{.txt, .pdf, .docx, .md,
.json, .csv}` raises `UnsupportedFormat` whatever the payload; a supported
filename whose content exceeds `max_file_size` (in particular
`max_file_size + 1` bytes) raises `FileTooLarge`.  In both cases the
returned state is exactly the input state, so nothing is written to the
upload directory and the store (hence its `count()`) is unchanged. -/
theorem C2_upload_gates (cfg : Settings) (extract : Except Nat (List Char))
    (up : UpsertOutcome) (st : RAGState) (f : String) (content : List Char) :
    (lowerStr (pathSuffix f) ∉ SUPPORTED_EXTENSIONS →
      upload_document cfg extract up st f content
        = (st, Except.error UploadError.unsupportedFormat)) ∧
    (lowerStr (pathSuffix f) ∈ SUPPORTED_EXTENSIONS →
      cfg.max_file_size < content.length →
      upload_document cfg extract up st f content
        = (st, Except.error UploadError.fileTooLarge)) := by
  constructor
  · intro hext
    exact upload_document_unsupported cfg extract up st f content
      (by simp [is_supported, hext])
  · intro hext hsz
    exact upload_document_too_large cfg extract up st f content
      (by simp [is_supported, hext]) hsz

/-- C2 witness: `file.exe` is rejected as unsupported; a 5-byte payload
against a 4-byte limit is rejected as too large; the state is returned
untouched. -/
theorem C2_upload_gates_witness :
    upload_document cfg0 (Except.ok []) UpsertOutcome.ok st0 "file.exe" ['a']
      = (st0, Except.error UploadError.unsupportedFormat) ∧
    upload_document cfg0 (Except.ok []) UpsertOutcome.ok st0 "a.txt" ['a', 'b', 'c', 'd', 'e']
      = (st0, Except.error UploadError.fileTooLarge) :=
  ⟨(C2_upload_gates cfg0 (Except.ok []) UpsertOutcome.ok st0 "file.exe" ['a']).1 (by decide),
   (C2_upload_gates cfg0 (Except.ok []) UpsertOutcome.ok st0 "a.txt"
      ['a', 'b', 'c', 'd', 'e']).2 (by decide) (by decide)⟩

/-- C7: a configuration with `chunk_overlap` not strictly below `chunk_size`
fails when the retrieval service is constructed (the splitter is built in
`DocumentProcessor.__init__`, which `RAGService.__init__` runs before any
upload or query can be issued); any configuration with
`chunk_overlap < chunk_size` constructs successfully.  The validation itself
lives in the third-party splitter and is modelled from the spec
(`document_processor_init`). -/
theorem C7_fail_fast_config (s : Settings) :
    (s.chunk_size ≤ s.chunk_overlap →
      rag_service_init s = Except.error ConfigError.overlapNotLessThanSize) ∧
    (s.chunk_overlap < s.chunk_size → ∃ h, rag_service_init s = Except.ok h) := by
  constructor
  · intro hle
    rw [rag_service_init, document_processor_init, if_neg (by omega)]
  · intro hlt
    rw [rag_service_init, document_processor_init, if_pos hlt]
    exact ⟨_, rfl⟩

/-- C7 witness: overlap 5 against size 3 is rejected at construction;
overlap 3 against size 10 constructs. -/
theorem C7_fail_fast_config_witness :
    rag_service_init { chunk_size := 3, chunk_overlap := 5, max_file_size := 9, upload_dir := "u" }
      = Except.error ConfigError.overlapNotLessThanSize ∧
    ∃ h, rag_service_init
        { chunk_size := 10, chunk_overlap := 3, max_file_size := 9, upload_dir := "u" }
      = Except.ok h :=
  ⟨(C7_fail_fast_config _).1 (by decide), (C7_fail_fast_config _).2 (by decide)⟩

/-- C8: `add_documents` (the store's upsert) returns the length of its
input batch; the empty batch is a no-op returning 0 — not an error even
when the underlying store would fail — leaving `count()` and the source
enumeration unchanged. -/
theorem C8_upsert_contract (store docs : List Chunk) (up : UpsertOutcome) :
    add_documents UpsertOutcome.ok store docs = (store ++ docs, Except.ok docs.length) ∧
    add_documents up store [] = (store, Except.ok 0) ∧
    get_document_count (add_documents up store []).1 = get_document_count store ∧
    get_all_sources (add_documents up store []).1 = get_all_sources store :=
  ⟨add_documents_ok store docs, rfl, rfl, rfl⟩

/-- C10: a supported, size-accepted document whose extracted text is empty
uploads successfully with result `(filename, 0)`: the chunker yields no
chunks, the store is untouched (count and sources unchanged — this holds
even if the store would fail, since the empty batch short-circuits), and the
raw file remains persisted in the upload directory. -/
theorem C10_empty_extraction (cfg : Settings) (up : UpsertOutcome) (st : RAGState)
    (f : String) (content : List Char)
    (hfmt : is_supported f = true) (hsize : content.length ≤ cfg.max_file_size) :
    upload_document cfg (Except.ok []) up st f content
      = ({ fs := fsWrite st.fs (osPathJoin cfg.upload_dir f) content, store := st.store },
         Except.ok (f, 0)) ∧
    fsExists (fsWrite st.fs (osPathJoin cfg.upload_dir f) content)
      (osPathJoin cfg.upload_dir f) = true := by
  refine ⟨?_, fsExists_fsWrite st.fs _ content⟩
  exact upload_document_empty_chunks cfg up st f content [] hfmt hsize rfl

/-- C10 witness: uploading 1 byte of `a.txt` with empty extracted text into
the empty state succeeds with 0 chunks and keeps the raw file, even though
the injected upsert outcome is a failure. -/
theorem C10_empty_extraction_witness :
    upload_document cfg0 (Except.ok []) (UpsertOutcome.fail 3 [chunkHi]) st0 "a.txt" ['x']
      = ({ fs := fsWrite st0.fs (osPathJoin cfg0.upload_dir "a.txt") ['x'],
           store := st0.store }, Except.ok ("a.txt", 0)) ∧
    fsExists (fsWrite st0.fs (osPathJoin cfg0.upload_dir "a.txt") ['x'])
      (osPathJoin cfg0.upload_dir "a.txt") = true :=
  C10_empty_extraction cfg0 (UpsertOutcome.fail 3 [chunkHi]) st0 "a.txt" ['x']
    (by decide) (by decide)

/-- C1: when both gates pass and processing or the upsert then raises, the
upload handler deletes the raw file it wrote (the upload path no longer
exists in the resulting state) and re-raises that same error: the returned
error is exactly the loader's exception resp. the store's exception. -/
theorem C1_failed_upload_cleanup (cfg : Settings) (extract : Except Nat (List Char))
    (up : UpsertOutcome) (st : RAGState) (f : String) (content : List Char)
    (e : UploadError)
    (hfmt : is_supported f = true)
    (hsize : content.length ≤ cfg.max_file_size)
    (hfail : (upload_document cfg extract up st f content).2 = Except.error e) :
    fsExists (upload_document cfg extract up st f content).1.fs
      (osPathJoin cfg.upload_dir f) = false ∧
    ((∃ code, extract = Except.error code ∧ e = UploadError.processingFailed code) ∨
     (∃ code written, up = UpsertOutcome.fail code written ∧
        e = UploadError.storageFailed code)) := by
  cases extract with
  | error code =>
      rw [upload_document_extract_error cfg up st f content code hfmt hsize] at hfail ⊢
      simp only [] at hfail
      rw [Except.error.injEq] at hfail
      exact ⟨fsExists_fsRemove _ _, Or.inl ⟨code, rfl, hfail.symm⟩⟩
  | ok text =>
      cases up with
      | ok =>
          rw [upload_document_success cfg st f content text hfmt hsize] at hfail
          simp at hfail
      | fail code written =>
          by_cases hch : process_file cfg f text = []
          · rw [upload_document_empty_chunks cfg (UpsertOutcome.fail code written)
                st f content text hfmt hsize hch] at hfail
            simp at hfail
          · rw [upload_document_upsert_fail cfg st f content text code written
                hfmt hsize hch] at hfail ⊢
            simp only [] at hfail
            rw [Except.error.injEq] at hfail
            exact ⟨fsExists_fsRemove _ _, Or.inr ⟨code, written, rfl, hfail.symm⟩⟩

/-- C1 witness: with both gates passing, an injected loader failure (code 7)
on the empty state leaves no raw file at the upload path and surfaces as
`processingFailed 7`. -/
theorem C1_failed_upload_cleanup_witness :
    fsExists (upload_document cfg0 (Except.error 7) UpsertOutcome.ok st0 "a.txt" ['x']).1.fs
      (osPathJoin cfg0.upload_dir "a.txt") = false ∧
    ((∃ code, (Except.error 7 : Except Nat (List Char)) = Except.error code ∧
        UploadError.processingFailed 7 = UploadError.processingFailed code) ∨
     (∃ code written, UpsertOutcome.ok = UpsertOutcome.fail code written ∧
        UploadError.processingFailed 7 = UploadError.storageFailed code)) :=
  C1_failed_upload_cleanup cfg0 (Except.error 7) UpsertOutcome.ok st0 "a.txt" ['x']
    (UploadError.processingFailed 7) (by decide) (by decide) (by decide)

/-- C9: if `f` was uploaded successfully and a second upload of the same `f`
passes both gates but then fails (loader or upsert), afterwards no raw file
for `f` exists in the upload directory — the first upload's raw file (which
did exist) was overwritten by the write step and then removed by the
cleanup — while every chunk the earlier upload left in the store is still
stored. -/
theorem C9_reupload_failure (cfg : Settings) (stA stB stC : RAGState) (f : String)
    (c1 c2 : List Char) (ex1 ex2 : Except Nat (List Char)) (up2 : UpsertOutcome)
    (n : Nat) (e : UploadError)
    (hfmt : is_supported f = true)
    (hsize2 : c2.length ≤ cfg.max_file_size)
    (h1 : upload_document cfg ex1 UpsertOutcome.ok stA f c1 = (stB, Except.ok (f, n)))
    (h2 : upload_document cfg ex2 up2 stB f c2 = (stC, Except.error e)) :
    fsExists stB.fs (osPathJoin cfg.upload_dir f) = true ∧
    fsExists stC.fs (osPathJoin cfg.upload_dir f) = false ∧
    ∀ c ∈ stB.store, c ∈ stC.store := by
  have hsz1 : ¬ cfg.max_file_size < c1.length := by
    intro hlt
    rw [upload_document_too_large cfg ex1 UpsertOutcome.ok stA f c1 hfmt hlt] at h1
    simp at h1
  cases ex1 with
  | error code =>
      rw [upload_document_extract_error cfg UpsertOutcome.ok stA f c1 code hfmt
        (by omega)] at h1
      simp at h1
  | ok text1 =>
      rw [upload_document_success cfg stA f c1 text1 hfmt (by omega),
        Prod.mk.injEq] at h1
      obtain ⟨hst1, -⟩ := h1
      subst hst1
      refine ⟨fsExists_fsWrite _ _ _, ?_⟩
      cases ex2 with
      | error code =>
          rw [upload_document_extract_error cfg up2 _ f c2 code hfmt hsize2,
            Prod.mk.injEq] at h2
          obtain ⟨hst2, -⟩ := h2
          rw [← hst2]
          exact ⟨fsExists_fsRemove _ _, fun c hc => hc⟩
      | ok text2 =>
          cases up2 with
          | ok =>
              rw [upload_document_success cfg _ f c2 text2 hfmt hsize2] at h2
              simp at h2
          | fail code written =>
              by_cases hch : process_file cfg f text2 = []
              · rw [upload_document_empty_chunks cfg (UpsertOutcome.fail code written)
                    _ f c2 text2 hfmt hsize2 hch] at h2
                simp at h2
              · rw [upload_document_upsert_fail cfg _ f c2 text2 code written
                    hfmt hsize2 hch, Prod.mk.injEq] at h2
                obtain ⟨hst2, -⟩ := h2
                rw [← hst2]
                exact ⟨fsExists_fsRemove _ _, fun c hc => List.mem_append_left _ hc⟩

/-- C9 witness: a concrete successful upload of `a.txt` followed by a
failing re-upload of `a.txt` — afterwards the raw file is gone while the
first upload's chunk is still stored. -/
theorem C9_reupload_failure_witness :
    fsExists st1c.fs (osPathJoin cfg0.upload_dir "a.txt") = true ∧
    fsExists st2c.fs (osPathJoin cfg0.upload_dir "a.txt") = false ∧
    ∀ c ∈ st1c.store, c ∈ st2c.store :=
  C9_reupload_failure cfg0 st0 st1c st2c "a.txt" ['x'] ['y'] (Except.ok ['h', 'i'])
    (Except.error 5) UpsertOutcome.ok 1 (UploadError.processingFailed 5)
    (by decide) (by decide) (by decide) (by decide)

/-- The context sources are exactly the sources of the result records. -/
theorem mem_sourcesOf (rs : List QueryRecord) (s : String) :
    s ∈ sourcesOf rs ↔ ∃ r ∈ rs, r.source = s := by
  rw [sourcesOf, mem_foldl_dedupAdd QueryRecord.source]
  simp

/-- The context sources are deduplicated. -/
theorem nodup_sourcesOf (rs : List QueryRecord) : (sourcesOf rs).Nodup :=
  nodup_foldl_dedupAdd QueryRecord.source rs [] List.nodup_nil

/-- C3: the chunks a successful upload hands to the store are numbered
`chunk_index = 0..N-1` in order, all carry `total_chunks = N` and
`source = filename`; and deleting a different source keeps every such chunk
in the store unchanged (no renumbering — the exact record survives). -/
theorem C3_chunk_metadata (cfg : Settings) (f g : String) (text : List Char)
    (store : List Chunk) :
    ((process_file cfg f text).map Chunk.chunk_index
        = List.range (process_file cfg f text).length) ∧
    (∀ c ∈ process_file cfg f text,
        c.total_chunks = (process_file cfg f text).length ∧ c.source = f) ∧
    (∀ c ∈ store, c.source ≠ g → c ∈ (delete_by_source g store).1) := by
  refine ⟨?_, ?_, fun c hc hne => delete_by_source_keeps_others g store c hc hne⟩
  · rw [process_file, tagChunks, tagChunksAux_map_chunk_index, tagChunksAux_length,
      List.range_eq_range']
  · intro c hc
    rw [process_file, tagChunks] at hc
    have h := tagChunksAux_mem f (splitText cfg.chunk_size cfg.chunk_overlap text).length
      (splitText cfg.chunk_size cfg.chunk_overlap text) 0 c hc
    rw [process_file, tagChunks, tagChunksAux_length]
    exact h

/-- C3 witness: a one-chunk document is numbered `[0]`, and a stored chunk
of source `a.txt` survives deletion of source `b.txt`. -/
theorem C3_chunk_metadata_witness :
    (process_file cfg0 "a.txt" ['h', 'i']).map Chunk.chunk_index
      = List.range (process_file cfg0 "a.txt" ['h', 'i']).length ∧
    chunkHi ∈ (delete_by_source "b.txt" [chunkHi]).1 :=
  ⟨(C3_chunk_metadata cfg0 "a.txt" "b.txt" ['h', 'i'] [chunkHi]).1,
   (C3_chunk_metadata cfg0 "a.txt" "b.txt" ['h', 'i'] [chunkHi]).2.2 chunkHi
     (by decide) (by decide)⟩

/-- C4 (amended): for `chunk_overlap < chunk_size`, every chunk the splitter
produces has length ≤ `chunk_size`; consecutive chunks of the same document
share exactly the configured overlap region — the previous chunk's final
`chunk_overlap` characters equal the next chunk's first `chunk_overlap`
characters (so the carried-over overlap never exceeds `chunk_overlap`); and
any NONEMPTY text shorter than `chunk_size` yields exactly one chunk
(empty text yields none, see the counterexample). -/
theorem C4_chunk_bounds (size ov : Nat) (text : List Char) (hov : ov < size) :
    (∀ c ∈ splitText size ov text, c.length ≤ size) ∧
    List.Chain' (fun c c' => ov ≤ c.length ∧ ov ≤ c'.length ∧
      c.drop (c.length - ov) = c'.take ov) (splitText size ov text) ∧
    (text ≠ [] → text.length < size → splitText size ov text = [text]) := by
  refine ⟨splitText_length_le size ov text, ?_, ?_⟩
  · refine List.Chain'.imp ?_ (splitText_chain size ov hov text)
    rintro a b ⟨ha, hb, hd⟩
    refine ⟨by omega, hb, ?_⟩
    rw [ha]
    exact hd
  · intro h0 h1
    exact splitText_single size ov text h0 (le_of_lt h1)

/-- C4 counterexample: the empty text is shorter than the chunk size (1000,
with overlap 200 as configured by default), yet the splitter yields zero
chunks, not exactly one. -/
theorem C4_chunk_bounds_counterexample :
    ([] : List Char).length < 1000 ∧ (splitText 1000 200 ([] : List Char)).length ≠ 1 :=
  ⟨by decide, by decide⟩

/-- C4 witness: a 3-character text with size 5, overlap 2 yields exactly
itself as the single chunk. -/
theorem C4_chunk_bounds_witness :
    splitText 5 2 ['a', 'b', 'c'] = [['a', 'b', 'c']] :=
  (C4_chunk_bounds 5 2 ['a', 'b', 'c'] (by decide)).2.2 (by decide) (by decide)

/-- C5: after `delete_document f`, no query ever returns a record with
source `f` and the source listing excludes `f`; the returned flag is true
exactly when some chunk with source `f` was stored before the call; and for
a never-indexed filename the call is not an error — it returns `false`. -/
theorem C5_delete_completeness (cfg : Settings) (st : RAGState) (f : String)
    (score : Chunk → Int) (top_k : Nat) :
    (∀ r ∈ rag_query score (delete_document cfg st f).1.store top_k, r.source ≠ f) ∧
    (f ∉ get_all_sources (delete_document cfg st f).1.store) ∧
    ((delete_document cfg st f).2 = true ↔ ∃ c ∈ st.store, c.source = f) ∧
    ((∀ c ∈ st.store, c.source ≠ f) → (delete_document cfg st f).2 = false) := by
  have hstore : (delete_document cfg st f).1.store = (delete_by_source f st.store).1 := rfl
  have hflag : (delete_document cfg st f).2 = (delete_by_source f st.store).2 := rfl
  refine ⟨?_, ?_, ?_, ?_⟩
  · intro r hr
    rw [hstore] at hr
    rcases rag_query_mem score _ top_k r hr with ⟨c, hc, heq⟩
    rw [heq]
    exact delete_by_source_removes f st.store c hc
  · rw [hstore]
    intro hmem
    rcases (mem_get_all_sources _ _).mp hmem with ⟨c, hc, hsrc⟩
    exact delete_by_source_removes f st.store c hc hsrc
  · rw [hflag]
    exact delete_by_source_flag f st.store
  · intro hnone
    rw [hflag]
    cases hb : (delete_by_source f st.store).2 with
    | false => rfl
    | true =>
        rcases (delete_by_source_flag f st.store).mp hb with ⟨c, hc, hsrc⟩
        exact absurd hsrc (hnone c hc)

/-- C5 witness: deleting `a.txt` from a store holding one `a.txt` chunk
reports `true` and leaves no `a.txt` behind; the flag criterion holds at the
concrete store. -/
theorem C5_delete_completeness_witness :
    ("a.txt" ∉ get_all_sources (delete_document cfg0 st1c "a.txt").1.store) ∧
    ((delete_document cfg0 st1c "a.txt").2 = true ↔ ∃ c ∈ st1c.store, c.source = "a.txt") :=
  ⟨(C5_delete_completeness cfg0 st1c "a.txt" (fun _ => 0) 5).2.1,
   (C5_delete_completeness cfg0 st1c "a.txt" (fun _ => 0) 5).2.2.1⟩

/-- C6: on an empty query result `get_context_for_query` returns
`("", [])`; in general its context string is the labeled blocks joined by
the horizontal-rule separator, where the `j`-th block is
`[Document j+1] (Source: <source>)`, a newline, and the chunk content; and
its source list is the deduplicated set of contributing sources. -/
theorem C6_context_assembly (score : Chunk → Int) (store : List Chunk) (top_k : Nat) :
    (rag_query score store top_k = [] →
      get_context_for_query score store top_k = ("", [])) ∧
    ((get_context_for_query score store top_k).1
        = String.intercalate "\n\n---\n\n" (contextBlocks 1 (rag_query score store top_k))) ∧
    (∀ (j : Nat) (r : QueryRecord), (rag_query score store top_k)[j]? = some r →
      (contextBlocks 1 (rag_query score store top_k))[j]?
        = some ("[Document " ++ toString (j + 1) ++ "] (Source: " ++ r.source ++ ")\n"
            ++ String.mk r.content)) ∧
    (get_context_for_query score store top_k).2.Nodup ∧
    (∀ s, s ∈ (get_context_for_query score store top_k).2
        ↔ ∃ r ∈ rag_query score store top_k, r.source = s) := by
  have hblocks : ∀ (j : Nat) (r : QueryRecord),
      (rag_query score store top_k)[j]? = some r →
      (contextBlocks 1 (rag_query score store top_k))[j]?
        = some ("[Document " ++ toString (j + 1) ++ "] (Source: " ++ r.source ++ ")\n"
            ++ String.mk r.content) := by
    intro j r hjr
    rw [contextBlocks_getElem _ 1 j r hjr, Nat.add_comm 1 j]
    rfl
  by_cases hres : rag_query score store top_k = []
  · have hgc : get_context_for_query score store top_k = ("", []) := by
      rw [get_context_for_query]
      simp [hres]
    refine ⟨fun _ => hgc, ?_, hblocks, ?_, ?_⟩
    · rw [hgc, hres]
      rfl
    · rw [hgc]
      exact List.nodup_nil
    · intro s
      rw [hgc, hres]
      simp
  · have hgc : get_context_for_query score store top_k
        = (String.intercalate "\n\n---\n\n" (contextBlocks 1 (rag_query score store top_k)),
           sourcesOf (rag_query score store top_k)) := by
      rw [get_context_for_query]
      rw [if_neg (by simp [List.isEmpty_iff, hres])]
    refine ⟨fun h => absurd h hres, ?_, hblocks, ?_, ?_⟩
    · rw [hgc]
    · rw [hgc]
      exact nodup_sourcesOf _
    · intro s
      rw [hgc]
      exact mem_sourcesOf _ s

/-- C6 witness: the empty store yields `("", [])`; a one-chunk store yields
the single labeled block and its deduplicated source. -/
theorem C6_context_assembly_witness :
    get_context_for_query (fun _ => 0) [] 3 = ("", []) ∧
    get_context_for_query (fun _ => 0) [chunkHi] 3
      = ("[Document 1] (Source: a.txt)\nhi", ["a.txt"]) :=
  ⟨(C6_context_assembly (fun _ => 0) [] 3).1 (by decide), by decide⟩

end LineAI
